import Mathlib

/-!
Verification development for the Summarizer-Server document pipeline.

Text is modelled as `List Char` (a JS string is a sequence of characters;
`String.prototype.length`, `slice`, `split`, `trim` become the evident list
operations).  Asynchronous service methods become pure functions: a provider
call that may throw is a function returning `Option`, a method that may throw
returns `Except` (or pairs its result state with an `Option` error message),
and the database rows touched by a method are passed in and returned
explicitly.
-/

namespace Summarizer

/-! ### JS string primitives -/

/-- Whitespace characters removed by `String.prototype.trim`. -/
def isWhitespace (c : Char) : Bool :=
  c = ' ' || c = '\t' || c = '\n' || c = '\r'

/-- Remove leading whitespace (the front half of `trim`). -/
def trimLeft : List Char → List Char
  | [] => []
  | c :: cs => if isWhitespace c then trimLeft cs else c :: cs

/-- Remove trailing whitespace. -/
def trimRight (s : List Char) : List Char :=
  (trimLeft s.reverse).reverse

/-- JS `s.trim()`: remove whitespace from both ends. -/
def trim (s : List Char) : List Char :=
  trimRight (trimLeft s)

/-- Split a character list at every character satisfying `p`, keeping the
(possibly empty) fragments between delimiter occurrences.  JS
`text.split(/[.!?]+/)` collapses delimiter runs, producing the same list as
this function once blank fragments are filtered out (a run of delimiters
yields only empty fragments in between). -/
def splitOnPred (p : Char → Bool) : List Char → List (List Char)
  | [] => [[]]
  | c :: cs =>
    if p c then [] :: splitOnPred p cs
    else
      match splitOnPred p cs with
      | [] => [[c]]
      | f :: rest => (c :: f) :: rest

/-- JS `s.toLowerCase()` (character-wise). -/
def toLowerStr (s : List Char) : List Char := s.map Char.toLower

/-- Substring test: does `pat` occur contiguously inside `hay`?  Models SQL
`LIKE '%pat%'` as used by the search queries. -/
def containsSub (pat : List Char) : List Char → Bool
  | [] => pat.isEmpty
  | c :: rest => pat.isPrefixOf (c :: rest) || containsSub pat rest

/-! ### Chunker (`DocumentService.chunkText`) -/

/-- Sentence terminators used by `chunkText`: `text.split(/[.!?]+/)`. -/
def isDelim (c : Char) : Bool :=
  c = '.' || c = '!' || c = '?'

/-- `text.split(/[.!?]+/).filter(s => s.trim().length > 0)`. -/
def sentencesOf (text : List Char) : List (List Char) :=
  (splitOnPred isDelim text).filter (fun s => (trim s).length > 0)

/-- Join a group of sentences with the fixed `". "` separator, exactly as the
chunk accumulator `currentChunk += (currentChunk ? '. ' : '') + sentence`
builds it.  (Specification helper used to state what a chunk is.) -/
def joinSep : List (List Char) → List Char
  | [] => []
  | [s] => s
  | s :: rest => s ++ '.' :: ' ' :: joinSep rest

/-- The `for (const sentence of sentences)` loop of `chunkText`, with the
accumulated `currentChunk` as explicit state, followed by the final
`if (currentChunk.trim()) chunks.push(currentChunk.trim())`. -/
def chunkLoop (chunkSize : Nat) : List (List Char) → List Char → List (List Char)
  | [], current => if (trim current).length > 0 then [trim current] else []
  | s :: rest, current =>
    if current.length + s.length > chunkSize && current.length > 0 then
      trim current :: chunkLoop chunkSize rest s
    else
      chunkLoop chunkSize rest
        (if current.length > 0 then current ++ '.' :: ' ' :: s else s)

/-- `DocumentService.chunkText(text, chunkSize)`. -/
def chunkText (text : List Char) (chunkSize : Nat) : List (List Char) :=
  chunkLoop chunkSize (sentencesOf text) []

/-! ### AIService

A completion provider (`tryGemini` / `tryOpenRouter`) is a function from the
prompt to `Option (List Char)`: `none` models a thrown error, `some s` a
returned completion.  The embedding endpoint returns `Option (List Int)`
(`none` = the call threw or the response carried no `data[0].embedding`);
the numeric values of the vector are opaque to the pipeline. -/

def Provider : Type := List Char → Option (List Char)

def EmbedProvider : Type := List Char → Option (List Int)

/-- A provider attempt counts as a success only when it did not throw and the
result is non-blank (`if (result.trim())`). -/
def succeeded (r : Option (List Char)) : Option (List Char) :=
  match r with
  | none => none
  | some s => if (trim s).length > 0 then some s else none

/-- Prompt built by `AIService.summarizeText`. -/
def summarizePrompt (text : List Char) : List Char :=
  ("You are an expert research paper summarizer. Provide concise, accurate summaries that capture the main findings, methodology, and conclusions.\n\nPlease summarize the following research paper text:\n\n").data
    ++ text

/-- Prompt built by `AIService.chatWithDocument` (`documentText.slice(0, 3000)`). -/
def chatPrompt (documentText userMessage : List Char) : List Char :=
  ("You are an AI assistant that helps users understand research papers. Use the following document content to answer questions accurately:\n\nDocument content:\n").data
    ++ documentText.take 3000 ++ ("...\n\nUser question: ").data ++ userMessage

/-- Prompt built by `AIService.generateKeywords` (`text.slice(0, 2000)`). -/
def keywordsPrompt (text : List Char) : List Char :=
  ("Extract 5-10 key terms and phrases from the following research paper text. Return them as a comma-separated list.\n\n").data
    ++ text.take 2000

/-- `AIService.summarizeText`: try Gemini, then OpenRouter; throw when both
fail or return blank. -/
def summarizeText (gemini openrouter : Provider) (text : List Char) :
    Except (List Char) (List Char) :=
  let prompt := summarizePrompt text
  match succeeded (gemini prompt) with
  | some r => .ok r
  | none =>
    match succeeded (openrouter prompt) with
    | some r => .ok r
    | none => .error ("Failed to generate summary with both providers").data

/-- `AIService.chatWithDocument`: same fallback chain as summarize. -/
def chatWithDocument (gemini openrouter : Provider) (documentText userMessage : List Char) :
    Except (List Char) (List Char) :=
  let prompt := chatPrompt documentText userMessage
  match succeeded (gemini prompt) with
  | some r => .ok r
  | none =>
    match succeeded (openrouter prompt) with
    | some r => .ok r
    | none => .error ("Failed to process chat message with both providers").data

/-- `result.split(',').map(k => k.trim()).filter(Boolean)`. -/
def parseKeywords (s : List Char) : List (List Char) :=
  (((splitOnPred (fun c => c = ',') s)).map trim).filter (fun k => !k.isEmpty)

/-- `AIService.generateKeywords`: same fallback chain, but when both providers
fail it RETURNS `[]` (`return []`) instead of throwing. -/
def generateKeywords (gemini openrouter : Provider) (text : List Char) :
    Except (List Char) (List (List Char)) :=
  let prompt := keywordsPrompt text
  match succeeded (gemini prompt) with
  | some r => .ok (parseKeywords r)
  | none =>
    match succeeded (openrouter prompt) with
    | some r => .ok (parseKeywords r)
    | none => .ok []

/-- `AIService.generateEmbedding`: one provider (OpenRouter), input truncated
to `text.slice(0, 8000)`; on a thrown error or malformed response it returns
`[]` rather than throwing. -/
def generateEmbedding (embed : EmbedProvider) (text : List Char) : List Int :=
  match embed (text.take 8000) with
  | some v => v
  | none => []

/-! ### Data model (`types/document.ts`) -/

inductive DocumentStatus
  | PENDING
  | PROCESSING
  | COMPLETED
  | FAILED
deriving DecidableEq, Repr

/-- A row of the `documents` table.  Timestamps are abstract `Nat` instants
(`NOW()` values are passed in explicitly by the callers below). -/
structure Document where
  id : Nat
  userId : Nat
  title : List Char
  fileName : List Char
  fileType : List Char
  fileSize : Nat
  fileUrl : Option (List Char)
  extractedText : Option (List Char)
  summary : Option (List Char)
  status : DocumentStatus
  createdAt : Nat
  updatedAt : Nat
deriving DecidableEq, Repr

structure CreateDocumentData where
  userId : Nat
  title : List Char
  fileName : List Char
  fileType : List Char
  fileSize : Nat
  fileUrl : Option (List Char) := none
  extractedText : Option (List Char) := none
deriving DecidableEq, Repr

/-- `UpdateDocumentData`: a field set to `none` models `undefined`/`null`,
which `DocumentService.update` skips. -/
structure UpdateDocumentData where
  title : Option (List Char) := none
  extractedText : Option (List Char) := none
  summary : Option (List Char) := none
  status : Option DocumentStatus := none
deriving DecidableEq, Repr

/-- A row of the `document_embeddings` table. -/
structure EmbeddingRow where
  documentId : Nat
  chunkIndex : Nat
  chunkText : List Char
  embedding : List Int
deriving DecidableEq, Repr

/-! ### DocumentService -/

/-- `DocumentService.create`: INSERT with status PENDING, `created_at` and
`updated_at` both `NOW()`; `fileUrl || null` and `extractedText || null` turn
an absent or empty-string value into SQL NULL. -/
def createDocument (data : CreateDocumentData) (newId now : Nat) : Document :=
  { id := newId
    userId := data.userId
    title := data.title
    fileName := data.fileName
    fileType := data.fileType
    fileSize := data.fileSize
    fileUrl := match data.fileUrl with
      | some u => if u.isEmpty then none else some u
      | none => none
    extractedText := match data.extractedText with
      | some t => if t.isEmpty then none else some t
      | none => none
    summary := none
    status := .PENDING
    createdAt := now
    updatedAt := now }

/-- `DocumentService.update`: builds a SET clause from the fields that are
neither `undefined` nor `null`; throws `'No fields to update'` (surfaced as
`'Failed to update document'`) when none are given; always sets
`updated_at = NOW()`. -/
def updateDocument (d : Document) (u : UpdateDocumentData) (now : Nat) :
    Except (List Char) Document :=
  if u.title = none ∧ u.extractedText = none ∧ u.summary = none ∧ u.status = none then
    .error ("Failed to update document").data
  else
    .ok { d with
      title := u.title.getD d.title
      extractedText := match u.extractedText with
        | some t => some t
        | none => d.extractedText
      summary := match u.summary with
        | some s => some s
        | none => d.summary
      status := u.status.getD d.status
      updatedAt := now }

/-- The loop body of `generateAndStoreEmbeddings`: for chunk `i`, insert one
`document_embeddings` row holding `aiService.generateEmbedding(chunk)`. -/
def storeChunks (embed : EmbedProvider) (docId : Nat) :
    List (List Char) → Nat → List EmbeddingRow
  | [], _ => []
  | c :: rest, i =>
    { documentId := docId
      chunkIndex := i
      chunkText := c
      embedding := generateEmbedding embed c } :: storeChunks embed docId rest (i + 1)

/-- The mutable rows a pipeline operation touches: the document under
processing and the `document_embeddings` table contents. -/
structure DbState where
  doc : Document
  embeddings : List EmbeddingRow
deriving DecidableEq, Repr

/-- `DocumentService.generateAndStoreEmbeddings(documentId)`: result state
paired with the thrown error message, if any.  A missing document or missing
extracted text throws, which the catch block turns into a FAILED status write
plus a rethrow; otherwise every chunk row is inserted (insert only — nothing
is deleted or replaced) and the status is set COMPLETED.  The status writes go
through `DocumentService.update` with `{ status }`, i.e. they also refresh
`updated_at` (see `updateDocument_status`). -/
def generateAndStoreEmbeddings (embed : EmbedProvider) (st : DbState) (now : Nat) :
    DbState × Option (List Char) :=
  match st.doc.extractedText with
  | none =>
    ({ st with doc := { st.doc with status := .FAILED, updatedAt := now } },
      some ("Failed to generate embeddings").data)
  | some text =>
    if text.isEmpty then
      ({ st with doc := { st.doc with status := .FAILED, updatedAt := now } },
        some ("Failed to generate embeddings").data)
    else
      let chunks := chunkText text 1000
      let rows := storeChunks embed st.doc.id chunks 0
      ({ doc := { st.doc with status := .COMPLETED, updatedAt := now }
         embeddings := st.embeddings ++ rows }, none)

/-- The `documents` and `document_embeddings` tables, for the search query. -/
structure Db where
  documents : List Document
  embeddings : List EmbeddingRow
deriving DecidableEq, Repr

/-- `ORDER BY created_at DESC`: most recent first. -/
def docOrder (a b : Document) : Prop := b.createdAt ≤ a.createdAt

instance : DecidableRel docOrder := fun a b => Nat.decLe b.createdAt a.createdAt

instance : IsTotal Document docOrder := ⟨fun a b => Nat.le_total b.createdAt a.createdAt⟩

instance : IsTrans Document docOrder := ⟨fun _ _ _ h1 h2 => Nat.le_trans h2 h1⟩

/-- Helper for `dedupFirst`: drop ids already seen, keep first occurrences. -/
def dedupFirstAux (seen : List Nat) : List Nat → List Nat
  | [] => []
  | x :: xs =>
    if seen.contains x then dedupFirstAux seen xs
    else x :: dedupFirstAux (x :: seen) xs

/-- `SELECT DISTINCT` keeping the first occurrence of each id (also the JS
`[...new Set(ids)]` dedup applied right after). -/
def dedupFirst (l : List Nat) : List Nat := dedupFirstAux [] l

/-- `DocumentService.searchSimilarDocuments(userId, queryText, limit)`.

The two SQL queries are modelled relationally (the SQL dialect itself is an
external collaborator): the first joins `document_embeddings` with
`documents`, keeps the current user's rows whose lowercased title or chunk
text contains the lowercased query, orders by `created_at DESC`, takes the
DISTINCT document ids and applies `LIMIT`; the second fetches the documents
with those ids belonging to the user, again ordered by `created_at DESC`.
Row lookup by `id` is `find?` (ids are the primary key). -/
def searchSimilarDocuments (db : Db) (userId : Nat) (queryText : List Char)
    (limit : Nat) : List Document :=
  let pat := toLowerStr queryText
  let matchedDocs := db.embeddings.filterMap (fun e =>
    match db.documents.find? (fun d => d.id == e.documentId) with
    | some d =>
      if d.userId == userId &&
          (containsSub pat (toLowerStr d.title) || containsSub pat (toLowerStr e.chunkText))
      then some d else none
    | none => none)
  let documentIds :=
    (dedupFirst ((List.insertionSort docOrder matchedDocs).map (·.id))).take limit
  if documentIds.isEmpty then []
  else
    List.insertionSort docOrder
      (documentIds.filterMap (fun i =>
        db.documents.find? (fun d => d.id == i && d.userId == userId)))

/-! ### DocumentController -/

/-- The controller responses a claim distinguishes (HTTP status + message). -/
inductive UploadResponse
  | created (doc : Document)
  | serverError
deriving DecidableEq, Repr

inductive SummarizeResponse
  | ok (summary : List Char)
  | invalidState
  | notFound
  | serverError
deriving DecidableEq, Repr

/-- The file fields `DocumentController.upload` reads from `req.file` (the
raw buffer is abstracted away: its extraction outcome is passed separately). -/
structure UploadFile where
  originalname : List Char
  mimetype : List Char
  size : Nat
deriving DecidableEq, Repr

/-- `req.file.originalname.split('.')[0]`. -/
def titleBeforeDot (name : List Char) : List Char :=
  name.takeWhile (fun c => c ≠ '.')

/-- The document record `DocumentController.upload` creates once extraction
has succeeded: `title: req.body.title || req.file.originalname.split('.')[0]`
plus the file metadata and the extracted text, persisted through
`documentService.create`. -/
def uploadDoc (userId : Nat) (file : UploadFile) (titleBody : Option (List Char))
    (extractedText : List Char) (newId now : Nat) : Document :=
  createDocument
    { userId := userId
      title := match titleBody with
        | some t => if t.isEmpty then titleBeforeDot file.originalname else t
        | none => titleBeforeDot file.originalname
      fileName := file.originalname
      fileType := file.mimetype
      fileSize := file.size
      extractedText := some extractedText } newId now

/-- `DocumentController.upload` after authentication and file validation:
`extractResult` is the Text Extractor outcome (`none` = it threw).  When
extraction throws, the outer catch answers 500 before any document is
created.  Otherwise the document is created (status PENDING, timestamps
`nowCreate`), summarization is attempted, and the follow-up status write uses
`NOW() = nowUpdate`.  Returns the final persisted document (if one was
created) and the HTTP response. -/
def uploadCore (userId : Nat) (file : UploadFile) (titleBody : Option (List Char))
    (extractResult : Option (List Char)) (gemini openrouter : Provider)
    (newId nowCreate nowUpdate : Nat) : Option Document × UploadResponse :=
  match extractResult with
  | none => (none, .serverError)
  | some extractedText =>
    let doc := uploadDoc userId file titleBody extractedText newId nowCreate
    match summarizeText gemini openrouter extractedText with
    | .ok summary =>
      match updateDocument doc { summary := some summary, status := some .COMPLETED } nowUpdate with
      | .ok d2 => (some d2, .created doc)
      | .error _ => (some doc, .serverError)
    | .error _ =>
      match updateDocument doc { status := some .FAILED } nowUpdate with
      | .ok d2 => (some d2, .created doc)
      | .error _ => (some doc, .serverError)

/-- `DocumentController.summarize` after authentication and id parsing:
`doc` is the `findByUserIdAndDocumentId` result.  An absent or empty
`extractedText` answers 400 (`'No text available for summarization'`) with no
write; a successful summarization persists the summary with status COMPLETED;
a summarization failure is caught and answered 500 — with no status write at
all on this path.  Returns the document state after the call and the
response. -/
def summarizeController (doc : Option Document) (gemini openrouter : Provider)
    (now : Nat) : Option Document × SummarizeResponse :=
  match doc with
  | none => (none, .notFound)
  | some d =>
    match d.extractedText with
    | none => (some d, .invalidState)
    | some text =>
      if text.isEmpty then (some d, .invalidState)
      else
        match summarizeText gemini openrouter text with
        | .ok summary =>
          match updateDocument d { summary := some summary, status := some .COMPLETED } now with
          | .ok d2 => (some d2, .ok summary)
          | .error _ => (some d, .serverError)
        | .error _ => (some d, .serverError)

/-! ### Concrete instances used by witnesses and counterexamples -/

/-- A provider whose every call throws. -/
def provNone : Provider := fun _ => none

/-- An embedding provider whose every call throws. -/
def embedNone : EmbedProvider := fun _ => none

/-- An embedding provider that always succeeds with the vector `[1]`. -/
def embedOne : EmbedProvider := fun _ => some [1]

/-- A small uploaded text file. -/
def fileA : UploadFile :=
  { originalname := ("a.txt").data, mimetype := ("text/plain").data, size := 4 }

/-- The document `DocumentController.upload` creates for `fileA` with body
title `"a"` and extracted text `"AAAA"`, id 7, at instant 0. -/
def docA : Document :=
  createDocument
    { userId := 1
      title := ("a").data
      fileName := ("a.txt").data
      fileType := ("text/plain").data
      fileSize := 4
      extractedText := some ("AAAA").data } 7 0

/-- A document with no extracted text. -/
def docNoText : Document := { docA with extractedText := none }

/-- A one-document database with no stored embeddings. -/
def dbA : Db := { documents := [docA], embeddings := [] }

/-! ### Lemmas about `trim` -/

theorem trimLeft_length_le (s : List Char) : (trimLeft s).length ≤ s.length := by
  induction s with
  | nil => exact Nat.le_refl _
  | cons c cs ih =>
    simp only [trimLeft]
    split
    · exact Nat.le_trans ih (Nat.le_succ _)
    · exact Nat.le_refl _

theorem trimRight_length_le (s : List Char) : (trimRight s).length ≤ s.length := by
  simpa [trimRight] using trimLeft_length_le s.reverse

theorem trim_length_le (s : List Char) : (trim s).length ≤ s.length :=
  Nat.le_trans (trimRight_length_le _) (trimLeft_length_le _)

theorem mem_trimLeft {c : Char} : ∀ {s : List Char}, c ∈ trimLeft s → c ∈ s := by
  intro s
  induction s with
  | nil => intro h; exact h
  | cons a cs ih =>
    simp only [trimLeft]
    split
    · intro h; exact List.mem_cons_of_mem _ (ih h)
    · intro h; exact h

theorem mem_trimRight {c : Char} {s : List Char} (h : c ∈ trimRight s) : c ∈ s := by
  rw [trimRight, List.mem_reverse] at h
  exact List.mem_reverse.mp (mem_trimLeft h)

theorem mem_trim {c : Char} {s : List Char} (h : c ∈ trim s) : c ∈ s :=
  mem_trimLeft (mem_trimRight h)

theorem trimLeft_eq_nil_iff {s : List Char} :
    trimLeft s = [] ↔ ∀ c ∈ s, isWhitespace c = true := by
  induction s with
  | nil => simp [trimLeft]
  | cons a cs ih =>
    simp only [trimLeft]
    split
    · next hws => simp [ih, hws]
    · next hws => simp [hws]

theorem allWs_trimLeft {s : List Char}
    (h : ∀ c ∈ trimLeft s, isWhitespace c = true) : ∀ c ∈ s, isWhitespace c = true := by
  induction s with
  | nil => simp
  | cons a cs ih =>
    intro c hc
    by_cases hws : isWhitespace a = true
    · rcases List.mem_cons.mp hc with rfl | hmem
      · exact hws
      · refine ih ?_ c hmem
        simpa only [trimLeft, hws, if_true] using h
    · exact h c (by simpa only [trimLeft, hws, if_false, Bool.false_eq_true] using hc)

theorem trim_eq_nil_iff {s : List Char} :
    trim s = [] ↔ ∀ c ∈ s, isWhitespace c = true := by
  rw [trim, trimRight, List.reverse_eq_nil_iff, trimLeft_eq_nil_iff]
  constructor
  · intro h
    exact allWs_trimLeft (fun c hc => h c (List.mem_reverse.mpr hc))
  · intro h c hc
    exact h c (mem_trimLeft (List.mem_reverse.mp hc))

theorem trim_length_pos_of_mem {c : Char} {s : List Char} (hc : c ∈ s)
    (hws : isWhitespace c = false) : 0 < (trim s).length := by
  rcases Nat.eq_zero_or_pos (trim s).length with h0 | h
  · exact absurd ((trim_eq_nil_iff.mp (List.length_eq_zero.mp h0)) c hc)
      (by simp [hws])
  · exact h

theorem exists_not_ws_of_trim_pos {s : List Char} (h : 0 < (trim s).length) :
    ∃ c ∈ s, isWhitespace c = false := by
  by_contra hall
  push_neg at hall
  have : trim s = [] := trim_eq_nil_iff.mpr (by
    intro c hc
    have := hall c hc
    revert this
    cases isWhitespace c <;> simp)
  simp [this] at h

theorem trimLeft_cons_of_not {c : Char} {t : List Char} (h : isWhitespace c = false) :
    trimLeft (c :: t) = c :: t := by
  simp [trimLeft, h]

theorem trimLeft_trimLeft (s : List Char) : trimLeft (trimLeft s) = trimLeft s := by
  induction s with
  | nil => simp [trimLeft]
  | cons a cs ih =>
    simp only [trimLeft]
    split
    · exact ih
    · next hws => exact trimLeft_cons_of_not (by simpa using hws)

theorem ws_false_of_trimLeft_cons {s t : List Char} {c : Char}
    (h : trimLeft s = c :: t) : isWhitespace c = false := by
  induction s with
  | nil => exact absurd h (by simp [trimLeft])
  | cons a cs ih =>
    by_cases hws : isWhitespace a = true
    · exact ih (by simpa only [trimLeft, hws, if_true] using h)
    · have ha : a = c := by
        have := h
        rw [trimLeft_cons_of_not (by simpa using hws)] at this
        exact (List.cons_eq_cons.mp this).1
      subst ha
      simpa using hws

theorem trimLeft_exists_append (s : List Char) : ∃ t, s = t ++ trimLeft s := by
  induction s with
  | nil => exact ⟨[], rfl⟩
  | cons a cs ih =>
    by_cases hws : isWhitespace a = true
    · obtain ⟨t, ht⟩ := ih
      exact ⟨a :: t, by simp only [trimLeft, hws, if_true]; rw [List.cons_append, ← ht]⟩
    · exact ⟨[], by rw [trimLeft_cons_of_not (by simpa using hws)]; rfl⟩

theorem trimRight_exists_append (u : List Char) : ∃ w, u = trimRight u ++ w := by
  obtain ⟨t, ht⟩ := trimLeft_exists_append u.reverse
  refine ⟨t.reverse, ?_⟩
  have := congrArg List.reverse ht
  simpa [trimRight] using this

theorem trimLeft_trimRight_trimLeft (s : List Char) :
    trimLeft (trimRight (trimLeft s)) = trimRight (trimLeft s) := by
  obtain ⟨w, hw⟩ := trimRight_exists_append (trimLeft s)
  cases hv : trimRight (trimLeft s) with
  | nil => rfl
  | cons c t =>
    have hu : trimLeft s = c :: (t ++ w) := by
      rw [hw, hv]; rfl
    exact trimLeft_cons_of_not (ws_false_of_trimLeft_cons hu)

theorem trimRight_trimRight (s : List Char) : trimRight (trimRight s) = trimRight s := by
  simp [trimRight, trimLeft_trimLeft]

theorem trim_trim (s : List Char) : trim (trim s) = trim s := by
  simp only [trim]
  rw [trimLeft_trimRight_trimLeft, trimRight_trimRight]

/-! ### Lemmas about `splitOnPred` and `joinSep` -/

theorem mem_splitOnPred {p : Char → Bool} {c : Char} :
    ∀ {s : List Char} {frag : List Char}, frag ∈ splitOnPred p s → c ∈ frag →
      p c = false := by
  intro s
  induction s with
  | nil =>
    intro frag hf hc
    simp only [splitOnPred, List.mem_singleton] at hf
    subst hf
    exact absurd hc (List.not_mem_nil c)
  | cons a cs ih =>
    intro frag hf hc
    simp only [splitOnPred] at hf
    by_cases hp : p a = true
    · rw [if_pos hp] at hf
      rcases List.mem_cons.mp hf with rfl | hmem
      · exact absurd hc (List.not_mem_nil c)
      · exact ih hmem hc
    · rw [if_neg hp] at hf
      cases hsp : splitOnPred p cs with
      | nil =>
        rw [hsp] at hf
        simp only [List.mem_singleton] at hf
        subst hf
        rcases List.mem_cons.mp hc with rfl | hmem
        · simpa using hp
        · exact absurd hmem (List.not_mem_nil c)
      | cons f rest =>
        rw [hsp] at hf
        rcases List.mem_cons.mp hf with rfl | hmem
        · rcases List.mem_cons.mp hc with rfl | hmem2
          · simpa using hp
          · exact ih (hsp ▸ List.mem_cons_self f rest) hmem2
        · exact ih (hsp ▸ List.mem_cons_of_mem f hmem) hc

theorem sentencesOf_no_delim {text : List Char} {s : List Char}
    (hs : s ∈ sentencesOf text) {c : Char} (hc : c ∈ s) : isDelim c = false :=
  mem_splitOnPred (List.mem_of_mem_filter hs) hc

theorem sentencesOf_trim_pos {text : List Char} {s : List Char}
    (hs : s ∈ sentencesOf text) : 0 < (trim s).length := by
  have := List.of_mem_filter hs
  simpa using this

theorem joinSep_cons_cons (s t : List Char) (rest : List (List Char)) :
    joinSep (s :: t :: rest) = s ++ '.' :: ' ' :: joinSep (t :: rest) := rfl

theorem joinSep_append_single {g : List (List Char)} (s : List Char) (hg : g ≠ []) :
    joinSep (g ++ [s]) = joinSep g ++ '.' :: ' ' :: s := by
  induction g with
  | nil => exact absurd rfl hg
  | cons a g' ih =>
    cases g' with
    | nil => rfl
    | cons b g'' =>
      have : (a :: b :: g'') ++ [s] = a :: ((b :: g'') ++ [s]) := rfl
      rw [this]
      have hbg : (b :: g'') ++ [s] = b :: (g'' ++ [s]) := rfl
      calc joinSep (a :: (b :: g'') ++ [s])
          = a ++ '.' :: ' ' :: joinSep ((b :: g'') ++ [s]) := by
            rw [hbg]; exact joinSep_cons_cons a b (g'' ++ [s])
        _ = a ++ '.' :: ' ' :: (joinSep (b :: g'') ++ '.' :: ' ' :: s) := by
            rw [ih (List.cons_ne_nil b g'')]
        _ = joinSep (a :: b :: g'') ++ '.' :: ' ' :: s := by
            rw [joinSep_cons_cons]; simp

theorem mem_joinSep_of_mem_head {c : Char} {s₀ : List Char} (g' : List (List Char))
    (h : c ∈ s₀) : c ∈ joinSep (s₀ :: g') := by
  cases g' with
  | nil => exact h
  | cons t g'' =>
    rw [joinSep_cons_cons]
    exact List.mem_append_left _ h

theorem mem_joinSep {c : Char} :
    ∀ {g : List (List Char)}, c ∈ joinSep g → (∃ s ∈ g, c ∈ s) ∨ c = '.' ∨ c = ' ' := by
  intro g
  induction g with
  | nil => intro h; exact absurd h (List.not_mem_nil c)
  | cons a g' ih =>
    cases g' with
    | nil =>
      intro h
      exact Or.inl ⟨a, List.mem_cons_self a [], h⟩
    | cons b g'' =>
      rw [joinSep_cons_cons]
      intro h
      rcases List.mem_append.mp h with ha | hrest
      · exact Or.inl ⟨a, List.mem_cons_self _ _, ha⟩
      · rcases List.mem_cons.mp hrest with rfl | h2
        · exact Or.inr (Or.inl rfl)
        · rcases List.mem_cons.mp h2 with rfl | h3
          · exact Or.inr (Or.inr rfl)
          · rcases ih h3 with ⟨s, hs, hcs⟩ | hc
            · exact Or.inl ⟨s, List.mem_cons_of_mem _ hs, hcs⟩
            · exact Or.inr hc

theorem trim_joinSep_pos {g : List (List Char)} (hg : g ≠ [])
    (hnb : ∀ s ∈ g, 0 < (trim s).length) : 0 < (trim (joinSep g)).length := by
  cases g with
  | nil => exact absurd rfl hg
  | cons s₀ g' =>
    obtain ⟨c, hcs, hws⟩ := exists_not_ws_of_trim_pos (hnb s₀ (List.mem_cons_self _ _))
    exact trim_length_pos_of_mem (mem_joinSep_of_mem_head g' hcs) hws

theorem joinSep_length_pos {g : List (List Char)} (hg : g ≠ [])
    (hnb : ∀ s ∈ g, 0 < (trim s).length) : 0 < (joinSep g).length :=
  Nat.lt_of_lt_of_le (trim_joinSep_pos hg hnb) (trim_length_le _)

/-! ### Structure of the chunker output

The loop state `currentChunk` is always the `". "`-join of the group of
sentences accumulated since the last chunk was closed; the chunks are the
trims of those joins, the groups partition the sentence list in order, and a
group of two or more sentences always fits in `chunkSize + 2` characters
(the guard compares `currentChunk.length + sentence.length` against the
budget without counting the 2-character separator it then inserts). -/

theorem chunkLoop_spec (size : Nat) :
    ∀ (ss : List (List Char)) (g : List (List Char)), g ≠ [] →
      (∀ s ∈ g, 0 < (trim s).length) →
      (∀ s ∈ ss, 0 < (trim s).length) →
      (g.length ≤ 1 ∨ (joinSep g).length ≤ size + 2) →
      ∃ groups : List (List (List Char)),
        (∀ h ∈ groups, h ≠ []) ∧
        groups.flatten = g ++ ss ∧
        chunkLoop size ss (joinSep g) = groups.map (fun h => trim (joinSep h)) ∧
        (∀ h ∈ groups, h.length ≤ 1 ∨ (joinSep h).length ≤ size + 2) := by
  intro ss
  induction ss with
  | nil =>
    intro g hg hnbg _ hinv
    refine ⟨[g], ?_, by simp, ?_, ?_⟩
    · intro h hh
      simp only [List.mem_singleton] at hh
      subst hh; exact hg
    · simp only [chunkLoop]
      rw [if_pos (trim_joinSep_pos hg hnbg)]
      simp
    · intro h hh
      simp only [List.mem_singleton] at hh
      subst hh; exact hinv
  | cons s rest ih =>
    intro g hg hnbg hss hinv
    have hs : 0 < (trim s).length := hss s (List.mem_cons_self _ _)
    have hpos : 0 < (joinSep g).length := joinSep_length_pos hg hnbg
    by_cases hc : (joinSep g).length + s.length > size
    · have hcond :
          (decide ((joinSep g).length + s.length > size) &&
            decide ((joinSep g).length > 0)) = true := by
        simp [hc, hpos]
      obtain ⟨groups', h1, h2, h3, h4⟩ :=
        ih [s] (by simp)
          (by
            intro x hx
            simp only [List.mem_singleton] at hx
            subst hx; exact hs)
          (fun x hx => hss x (List.mem_cons_of_mem _ hx))
          (Or.inl (by simp))
      refine ⟨g :: groups', ?_, ?_, ?_, ?_⟩
      · intro h hh
        rcases List.mem_cons.mp hh with rfl | hm
        · exact hg
        · exact h1 _ hm
      · have hj : (g :: groups').flatten = g ++ groups'.flatten := by simp
        rw [hj, h2]
        simp
      · simp only [chunkLoop]
        rw [if_pos hcond]
        simp only [List.map_cons]
        congr 1
      · intro h hh
        rcases List.mem_cons.mp hh with rfl | hm
        · exact hinv
        · exact h4 _ hm
    · have hcond :
          ¬ ((decide ((joinSep g).length + s.length > size) &&
            decide ((joinSep g).length > 0)) = true) := by
        simp [hc]
      have hle : (joinSep g).length + s.length ≤ size := Nat.le_of_not_lt hc
      have hjoin : joinSep g ++ '.' :: ' ' :: s = joinSep (g ++ [s]) :=
        (joinSep_append_single s hg).symm
      obtain ⟨groups, h1, h2, h3, h4⟩ :=
        ih (g ++ [s]) (by simp)
          (by
            intro x hx
            rcases List.mem_append.mp hx with hxg | hxs
            · exact hnbg x hxg
            · simp only [List.mem_singleton] at hxs
              subst hxs; exact hs)
          (fun x hx => hss x (List.mem_cons_of_mem _ hx))
          (Or.inr (by
            rw [← hjoin]
            simp only [List.length_append, List.length_cons]
            omega))
      refine ⟨groups, h1, ?_, ?_, h4⟩
      · rw [h2]
        simp
      · simp only [chunkLoop]
        rw [if_neg hcond, if_pos hpos, hjoin]
        exact h3

theorem chunkText_spec (text : List Char) (size : Nat) :
    ∃ groups : List (List (List Char)),
      (∀ h ∈ groups, h ≠ []) ∧
      groups.flatten = sentencesOf text ∧
      chunkText text size = groups.map (fun h => trim (joinSep h)) ∧
      (∀ h ∈ groups, h.length ≤ 1 ∨ (joinSep h).length ≤ size + 2) := by
  have hsent : ∀ s ∈ sentencesOf text, 0 < (trim s).length :=
    fun s hs => sentencesOf_trim_pos hs
  unfold chunkText
  cases hs : sentencesOf text with
  | nil =>
    refine ⟨[], by simp, by simp, ?_, by simp⟩
    simp only [chunkLoop, trim, trimLeft, trimRight, List.reverse_nil]
    simp
  | cons s ss =>
    have hs0 : 0 < (trim s).length := hsent s (by rw [hs]; exact List.mem_cons_self _ _)
    have hcond :
        ¬ ((decide (([] : List Char).length + s.length > size) &&
          decide (([] : List Char).length > 0)) = true) := by simp
    obtain ⟨groups, h1, h2, h3, h4⟩ :=
      chunkLoop_spec size ss [s] (by simp)
        (by
          intro x hx
          simp only [List.mem_singleton] at hx
          subst hx; exact hs0)
        (by
          intro x hx
          exact hsent x (by rw [hs]; exact List.mem_cons_of_mem _ hx))
        (Or.inl (by simp))
    refine ⟨groups, h1, by rw [h2]; simp, ?_, h4⟩
    simp only [chunkLoop]
    rw [if_neg hcond, if_neg (by simp)]
    exact h3

/-- Every chunk produced by `chunkText` is the trim of the `". "`-join of a
non-empty consecutive group of sentences; it is idempotent under `trim`,
non-empty, and bounded by `chunkSize + 2` unless it is just the trim of a
single (over-budget) sentence. -/
theorem chunkText_chunks {text : List Char} {size : Nat} {c : List Char}
    (hc : c ∈ chunkText text size) :
    trim c = c ∧ c ≠ [] ∧
    (c.length ≤ size + 2 ∨ ∃ s ∈ sentencesOf text, c = trim s) ∧
    ∃ g, g ≠ [] ∧ (∀ s ∈ g, s ∈ sentencesOf text) ∧ c = trim (joinSep g) := by
  obtain ⟨groups, h1, h2, h3, h4⟩ := chunkText_spec text size
  rw [h3] at hc
  obtain ⟨g, hg, hgc⟩ := List.mem_map.mp hc
  have hgelem : ∀ s ∈ g, s ∈ sentencesOf text := by
    intro s hsg
    rw [← h2]
    exact List.mem_flatten.mpr ⟨g, hg, hsg⟩
  have hgnb : ∀ s ∈ g, 0 < (trim s).length :=
    fun s hsg => sentencesOf_trim_pos (hgelem s hsg)
  have hgne : g ≠ [] := h1 g hg
  have hcpos : 0 < c.length := by
    rw [← hgc]
    exact trim_joinSep_pos hgne hgnb
  refine ⟨by rw [← hgc]; exact trim_trim _, ?_, ?_, g, hgne, hgelem, hgc.symm⟩
  · intro hnil
    rw [hnil] at hcpos
    exact absurd hcpos (by simp)
  · rcases h4 g hg with hlen | hbound
    · have : ∃ s, g = [s] := by
        cases g with
        | nil => exact absurd rfl hgne
        | cons a g' =>
          cases g' with
          | nil => exact ⟨a, rfl⟩
          | cons b g'' => simp at hlen
      obtain ⟨s, rfl⟩ := this
      exact Or.inr ⟨s, hgelem s (List.mem_singleton.mpr rfl), hgc.symm⟩
    · refine Or.inl ?_
      rw [← hgc]
      exact Nat.le_trans (trim_length_le _) hbound

/-! ### Lemmas about the services -/

theorem updateDocument_status (d : Document) (s : DocumentStatus) (now : Nat) :
    updateDocument d { status := some s } now =
      .ok { d with status := s, updatedAt := now } := rfl

theorem storeChunks_map_chunkText (embed : EmbedProvider) (docId : Nat) :
    ∀ (cs : List (List Char)) (i : Nat),
      (storeChunks embed docId cs i).map (fun r => r.chunkText) = cs := by
  intro cs
  induction cs with
  | nil => intro i; rfl
  | cons c rest ih =>
    intro i
    simp only [storeChunks, List.map_cons]
    rw [ih]

theorem storeChunks_length (embed : EmbedProvider) (docId : Nat) :
    ∀ (cs : List (List Char)) (i : Nat),
      (storeChunks embed docId cs i).length = cs.length := by
  intro cs
  induction cs with
  | nil => intro i; rfl
  | cons c rest ih =>
    intro i
    simp only [storeChunks, List.length_cons]
    rw [ih]

/-- On a document with non-empty extracted text (and the storage collaborator
succeeding), `generateAndStoreEmbeddings` always appends one row per chunk
and finishes with status COMPLETED and no error — regardless of the embedding
provider's outcomes. -/
theorem generateAndStoreEmbeddings_success (embed : EmbedProvider) (st : DbState)
    (now : Nat) (text : List Char) (hT : st.doc.extractedText = some text)
    (hne : text ≠ []) :
    generateAndStoreEmbeddings embed st now =
      ({ doc := { st.doc with status := DocumentStatus.COMPLETED, updatedAt := now }
         embeddings := st.embeddings ++ storeChunks embed st.doc.id (chunkText text 1000) 0 },
        none) := by
  have hempty : text.isEmpty = false := by
    cases text with
    | nil => exact absurd rfl hne
    | cons a t => rfl
  simp [generateAndStoreEmbeddings, hT, hempty]

/-! ### Claim theorems -/

/-- Claim C4, counterexample: for the input `"AAAA. BBBB"` with chunk size 9,
the single produced chunk `"AAAA.  BBBB"` has length 11 > 9, although no
sentence of the input exceeds 9 characters — the guard does not count the
2-character `". "` separator it inserts, so the claimed bound
"no chunk exceeds size unless a single sentence alone exceeds it" fails. -/
theorem C4_counterexample :
    chunkText ("AAAA. BBBB").data 9 = [("AAAA.  BBBB").data] ∧
    (("AAAA.  BBBB").data).length = 11 ∧
    ((sentencesOf ("AAAA. BBBB").data).all (fun s => s.length ≤ 9)) = true := by
  exact ⟨by decide, by decide, by decide⟩

/-- Claim C4 (amended): for every text and positive chunk size, all chunks
are non-empty, the chunks are exactly the trims of the `". "`-joins of a
consecutive partition of the sentence sequence (reconstructing it), and each
chunk either fits in `chunkSize + 2` characters (the separator the guard does
not count) or is the trim of a single over-long sentence. -/
theorem C4_chunker_structure (text : List Char) (chunkSize : Nat)
    (hsize : 0 < chunkSize) :
    (∀ c ∈ chunkText text chunkSize, c ≠ []) ∧
    (∃ groups : List (List (List Char)),
      (∀ g ∈ groups, g ≠ []) ∧
      groups.flatten = sentencesOf text ∧
      chunkText text chunkSize = groups.map (fun g => trim (joinSep g))) ∧
    (∀ c ∈ chunkText text chunkSize,
      c.length ≤ chunkSize + 2 ∨ ∃ s ∈ sentencesOf text, c = trim s) := by
  obtain ⟨groups, h1, h2, h3, _⟩ := chunkText_spec text chunkSize
  exact ⟨fun c hc => (chunkText_chunks hc).2.1,
    ⟨groups, h1, h2, h3⟩,
    fun c hc => (chunkText_chunks hc).2.2.1⟩

/-- Witness for C4 at text `"AAAA. BBBB"`, chunk size 9, chunk `"AAAA.  BBBB"`. -/
theorem C4_witness :
    (("AAAA.  BBBB").data).length ≤ 9 + 2 ∨
      ∃ s ∈ sentencesOf ("AAAA. BBBB").data, ("AAAA.  BBBB").data = trim s :=
  (C4_chunker_structure ("AAAA. BBBB").data 9 (by decide)).2.2
    ("AAAA.  BBBB").data (by decide)

/-- Claim C5, counterexample: on the spec's own scenario the three chunks
come back WITHOUT their trailing periods — the split discards the
delimiters and `chunkText` never restores them on single-sentence chunks. -/
theorem C5_counterexample :
    chunkText ("AAAA. BBBBBBBBBBBBBBBBBBBBBBBBBBB. CCCC.").data 30 ≠
      [("AAAA.").data, ("BBBBBBBBBBBBBBBBBBBBBBBBBBB.").data, ("CCCC.").data] := by
  decide

/-- Claim C5 (amended): the scenario input with chunk size 30 yields exactly
three chunks — `"AAAA"`, the over-budget `"BBBBBBBBBBBBBBBBBBBBBBBBBBB"`
alone, and `"CCCC"` — i.e. the claimed grouping, but stripped of the
terminal periods. -/
theorem C5_chunks :
    chunkText ("AAAA. BBBBBBBBBBBBBBBBBBBBBBBBBBB. CCCC.").data 30 =
      [("AAAA").data, ("BBBBBBBBBBBBBBBBBBBBBBBBBBB").data, ("CCCC").data] := by
  decide

/-- Claim C10: every chunk is `trim`-idempotent (trimmed of surrounding
whitespace), contains no `'!'` or `'?'` at all, and is the trim of a
`". "`-join of delimiter-free sentence fragments (the split discarded the
original terminal punctuation); and concretely for input `"A. B"` the chunk
`"A.  B"` is not a character-for-character substring of the input. -/
theorem C10_chunk_form :
    (∀ (text : List Char) (chunkSize : Nat), ∀ c ∈ chunkText text chunkSize,
      trim c = c ∧
      (∀ ch ∈ c, ch ≠ '!' ∧ ch ≠ '?') ∧
      ∃ g, g ≠ [] ∧ (∀ s ∈ g, ∀ ch ∈ s, isDelim ch = false) ∧
        c = trim (joinSep g)) ∧
    chunkText ("A. B").data 10 = [("A.  B").data] ∧
    ¬ ∃ l r : List Char, ("A. B").data = l ++ ("A.  B").data ++ r := by
  refine ⟨?_, by decide, ?_⟩
  · intro text size c hc
    obtain ⟨htrim, _, _, g, hgne, hgmem, hgeq⟩ := chunkText_chunks hc
    refine ⟨htrim, ?_, g, hgne, ?_, hgeq⟩
    · intro ch hch
      have hmem : ch ∈ joinSep g := mem_trim (hgeq ▸ hch)
      rcases mem_joinSep hmem with ⟨s, hsg, hchs⟩ | h | h
      · have hnd := sentencesOf_no_delim (hgmem s hsg) hchs
        constructor <;> (intro hEq; subst hEq; simp [isDelim] at hnd)
      · subst h; exact ⟨by decide, by decide⟩
      · subst h; exact ⟨by decide, by decide⟩
    · intro s hsg ch hchs
      exact sentencesOf_no_delim (hgmem s hsg) hchs
  · rintro ⟨l, r, h⟩
    have hlen := congrArg List.length h
    have h4 : (("A. B").data).length = 4 := by decide
    have h5 : (("A.  B").data).length = 5 := by decide
    rw [h4, List.length_append, List.length_append, h5] at hlen
    omega

/-- Witness for C10 at text `"A. B"`, chunk size 10, chunk `"A.  B"`. -/
theorem C10_witness : trim (("A.  B").data) = ("A.  B").data :=
  (C10_chunk_form.1 ("A. B").data 10 ("A.  B").data (by decide)).1

/-- Claim C1, counterexample: when the Text Extractor throws on the uploaded
bytes, `DocumentController.upload` reaches its outer catch (500) BEFORE
`documentService.create` runs — no document record is created at all, let
alone one with status FAILED. -/
theorem C1_counterexample :
    uploadCore 1 fileA (some ("a").data) none provNone provNone 7 0 1 =
      (none, .serverError) := rfl

/-- Claim C1 (amended): for every upload in which the Text Extractor fails,
no Document record is created for the user; the request fails with a server
error.  (A FAILED document with its extracted text intact arises only when
extraction succeeds and the subsequent summarization fails.) -/
theorem C1_extraction_failure (userId : Nat) (file : UploadFile)
    (titleBody : Option (List Char)) (gemini openrouter : Provider)
    (newId n0 n1 : Nat) :
    uploadCore userId file titleBody none gemini openrouter newId n0 n1 =
      (none, .serverError) := rfl

/-- Claim C2, counterexample: when every provider fails,
`AIService.generateKeywords` returns `.ok []` and
`AIService.generateEmbedding` returns the empty vector — neither raises an
"all providers failed" error, contradicting the claim for the `keywords` and
`embed` capabilities. -/
theorem C2_counterexample :
    generateKeywords provNone provNone ("text").data = .ok [] ∧
    generateEmbedding embedNone ("text").data = [] := ⟨rfl, rfl⟩

/-- Claim C2 (amended): when every configured provider throws or returns a
blank result, `summarizeText` and `chatWithDocument` raise a terminal error
naming the operation, but `generateKeywords` returns an empty list and
`generateEmbedding` returns an empty vector instead of raising. -/
theorem C2_orchestrator_exhaustion (gemini openrouter : Provider)
    (embed : EmbedProvider) (text msg : List Char)
    (hg : ∀ p, succeeded (gemini p) = none)
    (ho : ∀ p, succeeded (openrouter p) = none)
    (he : ∀ t, embed t = none) :
    summarizeText gemini openrouter text =
      .error ("Failed to generate summary with both providers").data ∧
    chatWithDocument gemini openrouter text msg =
      .error ("Failed to process chat message with both providers").data ∧
    generateKeywords gemini openrouter text = .ok [] ∧
    generateEmbedding embed text = [] := by
  refine ⟨?_, ?_, ?_, ?_⟩ <;>
    simp [summarizeText, chatWithDocument, generateKeywords, generateEmbedding,
      hg, ho, he]

/-- Witness for C2 with both providers throwing on every prompt. -/
theorem C2_witness :
    summarizeText provNone provNone ("t").data =
      .error ("Failed to generate summary with both providers").data :=
  (C2_orchestrator_exhaustion provNone provNone embedNone ("t").data ("m").data
    (fun _ => rfl) (fun _ => rfl) (fun _ => rfl)).1

/-- Claim C6: `DocumentController.summarize` on a document whose extracted
text is absent or empty answers 400 (`InvalidState`), performs no update —
the document keeps all its fields, in particular its status, and no summary
is persisted. -/
theorem C6_summarize_invalid_state (d : Document) (gemini openrouter : Provider)
    (now : Nat) (h : d.extractedText = none ∨ d.extractedText = some []) :
    summarizeController (some d) gemini openrouter now = (some d, .invalidState) := by
  rcases h with h | h <;> simp [summarizeController, h]

/-- Witness for C6 on a document with no extracted text. -/
theorem C6_witness :
    summarizeController (some docNoText) provNone provNone 5 =
      (some docNoText, .invalidState) :=
  C6_summarize_invalid_state docNoText provNone provNone 5 (Or.inl rfl)

/-- Claim C7, counterexample: on the upload path, a failed summarization
changes MORE than the status field — `DocumentService.update` also sets
`updated_at = NOW()`.  Concretely the document was created with
`updatedAt = 0` and after the failed summarization has `updatedAt = 1`. -/
theorem C7_counterexample :
    (uploadCore 1 fileA (some ("a").data) (some ("AAAA").data) provNone provNone
        7 0 1).1 =
      some { docA with status := DocumentStatus.FAILED, updatedAt := 1 } ∧
    docA.updatedAt = 0 ∧ docA.status = DocumentStatus.PENDING := by
  exact ⟨by decide, rfl, rfl⟩

/-- Claim C7 (amended): when summarization fails during upload, exactly the
status field (set to FAILED) and the `updatedAt` timestamp change; the
extracted text, summary, title, file metadata and `createdAt` of the created
document are untouched. -/
theorem C7_failed_summarize_frame (userId : Nat) (file : UploadFile)
    (titleBody : Option (List Char)) (text : List Char)
    (gemini openrouter : Provider) (newId n0 n1 : Nat)
    (hg : ∀ p, succeeded (gemini p) = none)
    (ho : ∀ p, succeeded (openrouter p) = none) :
    uploadCore userId file titleBody (some text) gemini openrouter newId n0 n1 =
      (some { uploadDoc userId file titleBody text newId n0 with
                status := DocumentStatus.FAILED, updatedAt := n1 },
        .created (uploadDoc userId file titleBody text newId n0)) := by
  simp [uploadCore, summarizeText, hg, ho, updateDocument]

/-- Witness for C7 with failing providers at concrete inputs. -/
theorem C7_witness :
    uploadCore 1 fileA (some ("a").data) (some ("AAAA").data) provNone provNone
        7 0 1 =
      (some { uploadDoc 1 fileA (some ("a").data) ("AAAA").data 7 0 with
                status := DocumentStatus.FAILED, updatedAt := 1 },
        .created (uploadDoc 1 fileA (some ("a").data) ("AAAA").data 7 0)) :=
  C7_failed_summarize_frame 1 fileA (some ("a").data) ("AAAA").data provNone
    provNone 7 0 1 (fun _ => rfl) (fun _ => rfl)

/-- Claim C3, counterexample: with the only embedding provider throwing on
every call, `generateAndStoreEmbeddings` on a document with extracted text
`"AAAA"` still persists the chunk — with an EMPTY embedding vector — sets the
document's status to COMPLETED, and surfaces no failure, contradicting the
claimed FAILED outcome. -/
theorem C3_counterexample :
    generateAndStoreEmbeddings embedNone { doc := docA, embeddings := [] } 1 =
      ({ doc := { docA with status := DocumentStatus.COMPLETED, updatedAt := 1 },
         embeddings := [{ documentId := 7, chunkIndex := 0,
                          chunkText := ("AAAA").data, embedding := [] }] },
        none) := by
  decide

/-- Claim C3 (amended): on a document with non-empty extracted text the
embedding step can never fail the operation: whatever the provider does, the
run reports no error, sets status COMPLETED, and appends one row per chunk —
a chunk whose provider call exhausted all providers is persisted with an
empty embedding (`generateEmbedding` returns `[]` instead of throwing).
FAILED is reached only when the document is missing or has no extracted
text (or the storage collaborator itself throws). -/
theorem C3_embedding_failure_completes (embed : EmbedProvider) (st : DbState)
    (now : Nat) (text : List Char) (hT : st.doc.extractedText = some text)
    (hne : text ≠ []) :
    (generateAndStoreEmbeddings embed st now).2 = none ∧
    (generateAndStoreEmbeddings embed st now).1.doc.status = DocumentStatus.COMPLETED ∧
    (generateAndStoreEmbeddings embed st now).1.embeddings =
      st.embeddings ++ storeChunks embed st.doc.id (chunkText text 1000) 0 := by
  rw [generateAndStoreEmbeddings_success embed st now text hT hne]
  exact ⟨rfl, rfl, rfl⟩

/-- Witness for C3 with the failing embedding provider on `docA`. -/
theorem C3_witness :
    (generateAndStoreEmbeddings embedNone { doc := docA, embeddings := [] } 1).2 =
      none :=
  (C3_embedding_failure_completes embedNone { doc := docA, embeddings := [] } 1
    ("AAAA").data rfl (by decide)).1

/-- Claim C9, counterexample: running `generateAndStoreEmbeddings` once on
`docA` persists 1 chunk row; running it twice persists 2 rows — the second
run only INSERTs, so the persisted chunk set doubles instead of staying the
same. -/
theorem C9_counterexample :
    ((generateAndStoreEmbeddings embedOne { doc := docA, embeddings := [] } 1).1).embeddings.length = 1 ∧
    ((generateAndStoreEmbeddings embedOne
        (generateAndStoreEmbeddings embedOne { doc := docA, embeddings := [] } 1).1
        2).1).embeddings.length = 2 := by
  exact ⟨by decide, by decide⟩

/-- Claim C9 (amended): calling `generateAndStoreEmbeddings` twice on an
unchanged document appends a second, textually identical copy of the chunk
sequence: the persisted rows' chunk texts are the prior rows' texts followed
by TWO copies of `chunkText(extractedText, 1000)`, and the row count grows by
twice the chunk count (irrespective of provider outcomes). -/
theorem C9_second_run_duplicates (e1 e2 : EmbedProvider) (st : DbState)
    (n1 n2 : Nat) (text : List Char)
    (hT : st.doc.extractedText = some text) (hne : text ≠ []) :
    ((generateAndStoreEmbeddings e2 (generateAndStoreEmbeddings e1 st n1).1 n2).1).embeddings.map
        (fun r => r.chunkText) =
      st.embeddings.map (fun r => r.chunkText) ++ chunkText text 1000 ++ chunkText text 1000 ∧
    ((generateAndStoreEmbeddings e2 (generateAndStoreEmbeddings e1 st n1).1 n2).1).embeddings.length =
      st.embeddings.length + 2 * (chunkText text 1000).length := by
  have h1 := generateAndStoreEmbeddings_success e1 st n1 text hT hne
  have hT2 : (generateAndStoreEmbeddings e1 st n1).1.doc.extractedText = some text := by
    rw [h1]; exact hT
  have h2 := generateAndStoreEmbeddings_success e2
    (generateAndStoreEmbeddings e1 st n1).1 n2 text hT2 hne
  rw [h2, h1]
  constructor
  · simp [storeChunks_map_chunkText]
  · simp [storeChunks_length]
    omega

/-- Witness for C9 running twice on `docA` with a succeeding provider. -/
theorem C9_witness :
    ((generateAndStoreEmbeddings embedOne
        (generateAndStoreEmbeddings embedOne { doc := docA, embeddings := [] } 1).1
        2).1).embeddings.length =
      ([] : List EmbeddingRow).length + 2 * (chunkText ("AAAA").data 1000).length :=
  (C9_second_run_duplicates embedOne embedOne { doc := docA, embeddings := [] } 1 2
    ("AAAA").data rfl (by decide)).2

/-- Claim C8: `searchSimilarDocuments` returns only documents of the
requesting user that are stored in the database, never more than `limit` of
them, ordered most-recent `createdAt` first; and a user with no stored
embeddings gets the empty result (the function returns rather than throws). -/
theorem C8_search_contract (db : Db) (userId : Nat) (q : List Char) (limit : Nat) :
    (∀ d ∈ searchSimilarDocuments db userId q limit,
        d.userId = userId ∧ d ∈ db.documents) ∧
    (searchSimilarDocuments db userId q limit).length ≤ limit ∧
    List.Sorted docOrder (searchSimilarDocuments db userId q limit) ∧
    ((∀ e ∈ db.embeddings, ∀ d ∈ db.documents, d.id = e.documentId → d.userId ≠ userId) →
      searchSimilarDocuments db userId q limit = []) := by
  refine ⟨?_, ?_, ?_, ?_⟩
  · intro d hd
    simp only [searchSimilarDocuments] at hd
    split at hd
    · exact absurd hd (List.not_mem_nil d)
    · obtain ⟨i, hi, hf⟩ := List.mem_filterMap.mp ((List.mem_insertionSort docOrder).mp hd)
      have hmem := List.mem_of_find?_eq_some hf
      have hp := List.find?_some hf
      simp only [Bool.and_eq_true, beq_iff_eq] at hp
      exact ⟨hp.2, hmem⟩
  · simp only [searchSimilarDocuments]
    split
    · exact Nat.zero_le _
    · exact le_trans (le_of_eq (List.Perm.length_eq (List.perm_insertionSort _ _)))
        (le_trans (List.length_filterMap_le _ _) (List.length_take_le _ _))
  · simp only [searchSimilarDocuments]
    split
    · exact List.sorted_nil
    · exact List.sorted_insertionSort docOrder _
  · intro hno
    simp only [searchSimilarDocuments]
    have hm : db.embeddings.filterMap (fun e =>
        match db.documents.find? (fun d => d.id == e.documentId) with
        | some d =>
          if d.userId == userId &&
              (containsSub (toLowerStr q) (toLowerStr d.title) ||
                containsSub (toLowerStr q) (toLowerStr e.chunkText))
          then some d else none
        | none => none) = [] := by
      apply List.filterMap_eq_nil_iff.mpr
      intro e he
      cases hfind : db.documents.find? (fun d => d.id == e.documentId) with
      | none => simp
      | some d =>
        have hdmem := List.mem_of_find?_eq_some hfind
        have hdid : d.id = e.documentId := by simpa using List.find?_some hfind
        have hne : d.userId ≠ userId := hno e he d hdmem hdid
        simp [hne]
    rw [hm]
    simp [dedupFirst, dedupFirstAux]

/-- Witness for C8: a user with no stored embeddings gets `[]`. -/
theorem C8_witness : searchSimilarDocuments dbA 2 ("q").data 5 = [] :=
  (C8_search_contract dbA 2 ("q").data 5).2.2.2
    (fun e he => absurd he (List.not_mem_nil e))

end Summarizer
